import Mathlib

/-!
Verification of the LoadTester core (`internal/runner/runner.go`).

This file gives a shallow embedding of the rate-controlled request generator in
`internal/runner/runner.go` and proves / refutes the frozen claims about it.

Conventions of the embedding:
* Go machine integers are modelled as `Nat` / `Int` with explicit reductions
  modulo `2^64` where Go wraps; `time.Duration` (an `int64` count of
  nanoseconds) is modelled as `Int`.
* A Go runtime panic (integer division by zero) is modelled by an `Option`
  result being `none`.
* The concurrent dispatcher / worker-pool of `StartTest` is modelled as a
  small-step transition relation (`Step`, `Reaches`) over an explicit state
  (`MState`); the serialisation provided by `lt.seqmu` and by the unbuffered
  channels is reflected in the atomicity of the individual steps, and the
  monotonic clock is the ever-increasing field `now`.
-/

namespace LoadTester

/-- The modulus `2^64` of Go's `uint64` arithmetic. -/
def U64 : Nat := 18446744073709551616

/-- The constant `math.MaxInt64 = 2^63 - 1`. -/
def MAX_INT64 : Nat := 9223372036854775807

/-- Go's conversion `uint64(z)` of an `int64` value `z`
(two's-complement reinterpretation, i.e. reduction mod `2^64`). -/
def u64ofInt (z : Int) : Nat := (z % (18446744073709551616 : Int)).toNat

/-- Go's conversion `int64(n)` (resp. `time.Duration(n)`) of a `uint64` value
`n`: reduce mod `2^64` and reinterpret in two's complement. -/
def int64ofU64 (n : Nat) : Int :=
  if n % U64 < 9223372036854775808 then ((n % U64 : Nat) : Int)
  else ((n % U64 : Nat) : Int) - 18446744073709551616

/-- Wrap-around of Go `int64` arithmetic: the representative of `z` modulo
`2^64` lying in `[-2^63, 2^63)`. -/
def wrap64 (z : Int) : Int :=
  (z + 9223372036854775808) % 18446744073709551616 - 9223372036854775808

/-- The configuration record `LoadTestArgs` of `runner.go`.
`Duration` is a Go `time.Duration` (`int64` nanoseconds, `0` = unbounded),
the numeric fields are `uint64`. -/
structure LoadTestArgs where
  duration : Int
  qps : Nat
  workers : Nat
  maxWorkers : Nat
  autoScale : Bool
  timeout : Nat
  method : String
  outputFile : String

/-- Shallow embedding of `(r *Runner).pace(elapsed, requests)`:

```go
expectedRequests := uint64(r.args.Qps) * uint64(elapsed/time.Second)
if requests < expectedRequests { return 0, false }
interval := uint64(time.Second.Nanoseconds() / int64(r.args.Qps))
if math.MaxInt64/interval < requests { return 0, true }
delta := time.Duration((requests + 1) * interval)
return delta - elapsed, false
```

`elapsed` is a `time.Duration` (`Int`), `qps` and `requests` are `uint64`
values.  The two `none` branches model the two places where the Go code would
panic with a division by zero: `time.Second.Nanoseconds() / int64(r.args.Qps)`
when `int64(qps) = 0`, and `math.MaxInt64/interval` when `interval = 0`
(which happens for every `qps` with `10^9 < qps ≤ 2^63`, since the integer
division `10^9 / qps` truncates to `0`). -/
def pace (qps : Nat) (elapsed : Int) (requests : Nat) : Option (Int × Bool) :=
  let req := requests % U64
  let expectedRequests := (qps % U64) * u64ofInt (elapsed.tdiv 1000000000) % U64
  if req < expectedRequests then
    some (0, false)
  else
    let qpsI := int64ofU64 qps
    if qpsI = 0 then none
    else
      let interval := u64ofInt ((1000000000 : Int).tdiv qpsI)
      if interval = 0 then none
      else if MAX_INT64 / interval < req then
        some (0, true)
      else
        let delta := int64ofU64 ((req + 1) * interval)
        some (wrap64 (delta - elapsed), false)

/-- The abstract outcome of one HTTP request attempt, as distinguished by the
control flow of `sendRequest`: `http.NewRequest` failed, `r.client.Do` failed,
or a response with a status code and status text was received. -/
inductive HttpOutcome where
  | buildErr (msg : String)
  | transportErr (msg : String)
  | response (statusCode : Nat) (statusText : String)
deriving DecidableEq

/-- The `Result` record of `runner.go`.  `Code` is a `uint16`, `Latency` a
`time.Duration` (`Int` nanoseconds), `Timestamp` a monotonic-clock reading in
nanoseconds (`time.Time`), `Seq` a `uint64`. -/
structure Result where
  Success : Bool
  Latency : Int
  Timestamp : Nat
  Seq : Nat
  Error : String
  Code : Nat
deriving DecidableEq

/-- Shallow embedding of `(r *Runner).sendRequest(lt)` for one attempt whose
mutex-guarded send section ran at clock time `sendTime` with counter value
`seq`, whose deferred epilogue ran at clock time `doneTime`, and whose HTTP
interaction had outcome `outcome`.

Field by field, following the Go code: `Timestamp` and `Seq` are set inside
`lt.seqmu`; the deferred function sets `Latency = time.Since(result.Timestamp)`
and copies a non-nil error text into `Error`; on a build or transport error the
function returns with `Code` still at its zero value; otherwise
`Code = uint16(res.StatusCode)` and `Error` is set to `res.Status` exactly when
`Code < 200 || Code >= 400`.  The Go code never assigns the `Success` field, so
it keeps its zero value `false` on every path. -/
def sendRequest (seq sendTime doneTime : Nat) (outcome : HttpOutcome) : Result :=
  match outcome with
  | .buildErr msg =>
      { Success := false, Latency := (doneTime : Int) - (sendTime : Int),
        Timestamp := sendTime, Seq := seq, Error := msg, Code := 0 }
  | .transportErr msg =>
      { Success := false, Latency := (doneTime : Int) - (sendTime : Int),
        Timestamp := sendTime, Seq := seq, Error := msg, Code := 0 }
  | .response statusCode statusText =>
      let c := statusCode % 65536
      { Success := false, Latency := (doneTime : Int) - (sendTime : Int),
        Timestamp := sendTime, Seq := seq,
        Error := if c < 200 ∨ 400 ≤ c then statusText else "", Code := c }

/-- The success criterion used by `printResultSummary` in `runner.go`:
`r.Code >= 200 && r.Code < 400`. -/
def summarySuccess (r : Result) : Bool :=
  decide (200 ≤ r.Code) && decide (r.Code < 400)

/-- The state owned by `(r *Runner).Stop()`: whether `r.stopch` has been
closed, plus a ghost counter of how many times `close(r.stopch)` ran (a second
`close` would panic in Go). -/
structure StopState where
  stopchClosed : Bool
  closeCount : Nat
deriving DecidableEq

/-- Shallow embedding of `(r *Runner).Stop()`:

```go
select {
case <-r.stopch: return false
default:
    r.stopOnce.Do(func() { close(r.stopch) })
    return true
}
```

In the sequential (happens-after) semantics the `select` observes a closed
channel exactly when a previous call closed it; `stopOnce` has then never run,
so the `default` branch closes the channel exactly once. -/
def Stop (s : StopState) : StopState × Bool :=
  if s.stopchClosed then (s, false)
  else ({ stopchClosed := true, closeCount := s.closeCount + 1 }, true)

/-- The state of `r.stopch` as set up by `NewRunner`: an open channel. -/
def stopInit : StopState := { stopchClosed := false, closeCount := 0 }

/-- Runs `n` successive (sequential) calls of `Stop`, returning the final state and
the list of returned booleans. -/
def stopCalls : Nat → StopState → StopState × List Bool
  | 0, s => (s, [])
  | n + 1, s =>
      let p := Stop s
      let q := stopCalls n p.1
      (q.1, p.2 :: q.2)

example : pace 100 0 0 = some (10000000, false) := by decide
example : pace 100 2500000000 10 = some (0, false) := by decide
example : pace 0 0 0 = none := by decide
example : pace 1000000001 0 0 = none := by decide

/-! ## Arithmetic lemmas about the `uint64` / `int64` helpers -/

lemma tdiv_natCast (m n : Nat) : (m : Int).tdiv (n : Int) = ((m / n : Nat) : Int) := rfl

lemma u64ofInt_natCast (m : Nat) : u64ofInt (m : Int) = m % U64 := rfl

lemma u64ofInt_natCast_of_lt {m : Nat} (h : m < U64) : u64ofInt (m : Int) = m := by
  rw [u64ofInt_natCast, Nat.mod_eq_of_lt h]

lemma int64ofU64_of_lt {n : Nat} (h : n < 9223372036854775808) :
    int64ofU64 n = (n : Int) := by
  have hU : n % U64 = n := Nat.mod_eq_of_lt (lt_trans h (by norm_num [U64]))
  rw [int64ofU64, hU, if_pos h]

lemma wrap64_eq_self {z : Int} (h1 : -9223372036854775808 ≤ z)
    (h2 : z < 9223372036854775808) : wrap64 z = z := by
  rw [wrap64, Int.emod_eq_of_lt (by omega) (by omega)]
  omega

/-! ## Claims C1, C3, C10: the pacing function -/

/-- Claim C1 (amended).  For `0 < QPS ≤ 10^9` (so that the truncated interval
`1s / QPS` is at least one nanosecond and the Go code does not divide by
zero), for every `elapsed` in the `int64` duration range and every `uint64`
count of requests sent so far: if the count is behind
`QPS * floor(elapsed / 1s)` then `pace` returns a zero wait and no stop;
otherwise, absent overflow of `(count + 1) * interval`, `pace` returns
`wait = (count + 1) * interval - elapsed` (which may be zero or negative) and
no stop, with `interval = 1s / QPS` by truncated integer nanosecond division.
In both branches the result is a value, never an error. -/
theorem C1_pace_branches (qps : Nat) (elapsed : Int) (requests : Nat)
    (hq0 : 0 < qps) (hq : qps ≤ 1000000000)
    (he0 : 0 ≤ elapsed) (he : elapsed ≤ 9223372036854775807)
    (hr : requests < 18446744073709551616) :
    (requests < qps * (elapsed.toNat / 1000000000) →
        pace qps elapsed requests = some (0, false)) ∧
    (¬ requests < qps * (elapsed.toNat / 1000000000) →
        (requests + 1) * (1000000000 / qps) ≤ 9223372036854775807 →
        pace qps elapsed requests =
          some ((((requests + 1) * (1000000000 / qps) : Nat) : Int) - elapsed, false)) := by
  have hU64 : U64 = 18446744073709551616 := rfl
  have hreq : requests % U64 = requests := Nat.mod_eq_of_lt hr
  have hqU : qps % U64 = qps := Nat.mod_eq_of_lt (by omega)
  have hcast : elapsed = ((elapsed.toNat : Nat) : Int) := (Int.toNat_of_nonneg he0).symm
  have htN : elapsed.toNat ≤ 9223372036854775807 := by omega
  have hdivbound : elapsed.toNat / 1000000000 ≤ 9223372036 := by
    have h1 : elapsed.toNat / 1000000000 ≤ 9223372036854775807 / 1000000000 :=
      Nat.div_le_div_right htN
    norm_num at h1
    omega
  have hexpbound : qps * (elapsed.toNat / 1000000000) < U64 := by
    have h1 : qps * (elapsed.toNat / 1000000000) ≤ 1000000000 * 9223372036 :=
      Nat.mul_le_mul hq hdivbound
    have : (1000000000 : Nat) * 9223372036 < U64 := by norm_num [U64]
    omega
  have hexp : (qps % U64) * u64ofInt (elapsed.tdiv 1000000000) % U64
      = qps * (elapsed.toNat / 1000000000) := by
    rw [hqU]
    conv_lhs => rw [hcast]
    rw [show ((1000000000 : Int)) = ((1000000000 : Nat) : Int) from rfl,
      tdiv_natCast, u64ofInt_natCast_of_lt (by omega),
      Nat.mod_eq_of_lt hexpbound]
  have hqI : int64ofU64 qps = (qps : Int) := int64ofU64_of_lt (by omega)
  have hqIne : (qps : Int) ≠ 0 := by exact_mod_cast hq0.ne'
  have hint : u64ofInt ((1000000000 : Int).tdiv (qps : Int)) = 1000000000 / qps := by
    rw [show ((1000000000 : Int)) = ((1000000000 : Nat) : Int) from rfl, tdiv_natCast,
      u64ofInt_natCast_of_lt]
    have : (1000000000 : Nat) / qps ≤ 1000000000 := Nat.div_le_self _ _
    norm_num [U64]
    omega
  have hint1 : 1 ≤ 1000000000 / qps := (Nat.one_le_div_iff hq0).mpr hq
  constructor
  · intro hbehind
    simp only [pace, hreq, hexp]
    rw [if_pos hbehind]
  · intro hbehind hov
    have hguard : ¬ MAX_INT64 / (1000000000 / qps) < requests := by
      rw [not_lt]
      rw [Nat.le_div_iff_mul_le (by omega)]
      calc requests * (1000000000 / qps) ≤ (requests + 1) * (1000000000 / qps) := by
            exact Nat.mul_le_mul_right _ (by omega)
        _ ≤ MAX_INT64 := by rw [MAX_INT64]; exact hov
    have hdelta : int64ofU64 ((requests + 1) * (1000000000 / qps))
        = (((requests + 1) * (1000000000 / qps) : Nat) : Int) :=
      int64ofU64_of_lt (by omega)
    simp only [pace, hreq, hexp]
    rw [if_neg hbehind, hqI, if_neg hqIne, hint, if_neg (by omega), if_neg hguard, hdelta,
      wrap64_eq_self (by omega) (by omega)]

/-- Claim C1, counterexample.  The claim quantifies over every `QPS > 0`, but at
`QPS = 2·10^9` the truncated interval `10^9 / QPS` is `0` and the Go code
panics with a division by zero in `math.MaxInt64/interval` (modelled by
`none`) instead of returning the claimed wait. -/
theorem C1_counterexample : pace 2000000000 0 0 = none := by decide

/-- Claim C1, witness: a concrete behind-schedule input, evaluated. -/
theorem C1_witness : pace 100 2500000000 10 = some (0, false) :=
  (C1_pace_branches 100 2500000000 10 (by norm_num) (by norm_num) (by norm_num)
    (by norm_num) (by norm_num)).1 (by decide)

/-- Claim C3 (amended).  For `0 < QPS ≤ 10^9`, an `int64` `elapsed` and a
`uint64` count that is not behind schedule, `pace` returns `stop = true`
exactly when `requests * interval` (not `(requests + 1) * interval`) exceeds
`math.MaxInt64`, where `interval = 1s / QPS`; for all smaller counts it does
not stop on this ground.  At the boundary count `⌊MaxInt64 / interval⌋` the
product `(requests + 1) * interval` can exceed `MaxInt64` while the run is not
stopped, and the delta arithmetic wraps (see the counterexample). -/
theorem C3_overflow_guard (qps : Nat) (elapsed : Int) (requests : Nat)
    (hq0 : 0 < qps) (hq : qps ≤ 1000000000)
    (he0 : 0 ≤ elapsed) (he : elapsed ≤ 9223372036854775807)
    (hr : requests < 18446744073709551616)
    (hbehind : ¬ requests < qps * (elapsed.toNat / 1000000000)) :
    (pace qps elapsed requests = some (0, true) ↔
      9223372036854775807 < requests * (1000000000 / qps)) := by
  have hU64 : U64 = 18446744073709551616 := rfl
  have hreq : requests % U64 = requests := Nat.mod_eq_of_lt hr
  have hqU : qps % U64 = qps := Nat.mod_eq_of_lt (by omega)
  have hcast : elapsed = ((elapsed.toNat : Nat) : Int) := (Int.toNat_of_nonneg he0).symm
  have htN : elapsed.toNat ≤ 9223372036854775807 := by omega
  have hdivbound : elapsed.toNat / 1000000000 ≤ 9223372036 := by
    have h1 : elapsed.toNat / 1000000000 ≤ 9223372036854775807 / 1000000000 :=
      Nat.div_le_div_right htN
    norm_num at h1
    omega
  have hexpbound : qps * (elapsed.toNat / 1000000000) < U64 := by
    have h1 : qps * (elapsed.toNat / 1000000000) ≤ 1000000000 * 9223372036 :=
      Nat.mul_le_mul hq hdivbound
    have : (1000000000 : Nat) * 9223372036 < U64 := by norm_num [U64]
    omega
  have hexp : (qps % U64) * u64ofInt (elapsed.tdiv 1000000000) % U64
      = qps * (elapsed.toNat / 1000000000) := by
    rw [hqU]
    conv_lhs => rw [hcast]
    rw [show ((1000000000 : Int)) = ((1000000000 : Nat) : Int) from rfl,
      tdiv_natCast, u64ofInt_natCast_of_lt (by omega),
      Nat.mod_eq_of_lt hexpbound]
  have hqI : int64ofU64 qps = (qps : Int) := int64ofU64_of_lt (by omega)
  have hqIne : (qps : Int) ≠ 0 := by exact_mod_cast hq0.ne'
  have hint : u64ofInt ((1000000000 : Int).tdiv (qps : Int)) = 1000000000 / qps := by
    rw [show ((1000000000 : Int)) = ((1000000000 : Nat) : Int) from rfl, tdiv_natCast,
      u64ofInt_natCast_of_lt]
    have : (1000000000 : Nat) / qps ≤ 1000000000 := Nat.div_le_self _ _
    norm_num [U64]
    omega
  have hint1 : 1 ≤ 1000000000 / qps := (Nat.one_le_div_iff hq0).mpr hq
  have hguardiff : (MAX_INT64 / (1000000000 / qps) < requests) ↔
      9223372036854775807 < requests * (1000000000 / qps) := by
    rw [Nat.div_lt_iff_lt_mul (by omega), MAX_INT64]
  by_cases hguard : MAX_INT64 / (1000000000 / qps) < requests
  · have : pace qps elapsed requests = some (0, true) := by
      simp only [pace, hreq, hexp]
      rw [if_neg hbehind, hqI, if_neg hqIne, hint, if_neg (by omega), if_pos hguard]
    rw [this]
    simp only [hguardiff.mp hguard, iff_true]
  · have : pace qps elapsed requests
        = some (wrap64 (int64ofU64 ((requests + 1) * (1000000000 / qps)) - elapsed), false) := by
      simp only [pace, hreq, hexp]
      rw [if_neg hbehind, hqI, if_neg hqIne, hint, if_neg (by omega), if_neg hguard]
    rw [this]
    constructor
    · intro h
      exact absurd (Prod.mk.injEq .. ▸ (Option.some.injEq .. ▸ h)).2 (by simp)
    · intro h
      exact absurd h (hguardiff.not.mp hguard)

/-- Claim C3, counterexample.  At `QPS = 10^9` (`interval = 1`ns) and
`requests = MaxInt64`, the product `(requests + 1) * interval = 2^63` exceeds
the maximum representable duration, yet `pace` does *not* stop: the guard
`math.MaxInt64/interval < requests` compares `requests`, not `requests + 1`,
so the delta wraps to the negative duration `-2^63` and the run continues. -/
theorem C3_counterexample :
    pace 1000000000 0 9223372036854775807 = some (-9223372036854775808, false) ∧
    9223372036854775807 < (9223372036854775807 + 1) * (1000000000 / 1000000000) := by
  constructor
  · decide
  · norm_num

/-- Claim C3, witness: one past the boundary, the guard does stop the run. -/
theorem C3_witness : pace 1000000000 0 9223372036854775808 = some (0, true) :=
  (C3_overflow_guard 1000000000 0 9223372036854775808 (by norm_num) (by norm_num)
    (by norm_num) (by norm_num) (by norm_num [U64]) (by decide)).mpr (by norm_num)

/-- Claim C10 (amended).  The function `pace` is total (in particular free of division by
zero) under the precondition `0 < QPS ≤ 10^9`; when `QPS = 0` the interval
computation `time.Second.Nanoseconds() / int64(qps)` divides by zero for every
elapsed time and request count (the behind-schedule branch cannot avoid it,
since the expected-request count is then `0`). -/
theorem C10_pace_defined (qps : Nat) (elapsed : Int) (requests : Nat)
    (hq0 : 0 < qps) (hq : qps ≤ 1000000000) :
    (pace qps elapsed requests).isSome = true ∧ pace 0 elapsed requests = none := by
  have hU64 : U64 = 18446744073709551616 := rfl
  have hqI : int64ofU64 qps = (qps : Int) := int64ofU64_of_lt (by omega)
  have hqIne : (qps : Int) ≠ 0 := by exact_mod_cast hq0.ne'
  have hint : u64ofInt ((1000000000 : Int).tdiv (qps : Int)) = 1000000000 / qps := by
    rw [show ((1000000000 : Int)) = ((1000000000 : Nat) : Int) from rfl, tdiv_natCast,
      u64ofInt_natCast_of_lt]
    have : (1000000000 : Nat) / qps ≤ 1000000000 := Nat.div_le_self _ _
    norm_num [U64]
    omega
  have hint1 : 1 ≤ 1000000000 / qps := (Nat.one_le_div_iff hq0).mpr hq
  constructor
  · by_cases hbehind : requests % U64
        < (qps % U64) * u64ofInt (elapsed.tdiv 1000000000) % U64
    · simp only [pace]
      rw [if_pos hbehind]
      rfl
    · simp only [pace]
      rw [if_neg hbehind, hqI, if_neg hqIne, hint, if_neg (by omega)]
      by_cases hguard : MAX_INT64 / (1000000000 / qps) < requests % U64
      · rw [if_pos hguard]; rfl
      · rw [if_neg hguard]; rfl
  · simp only [pace]
    rw [if_neg (by simp [u64ofInt]), if_pos]
    rfl

/-- Claim C10, counterexample.  The claim asserts totality for every `QPS > 0`,
but at `QPS = 10^9 + 1` the truncated interval is `0` and the overflow guard
`math.MaxInt64/interval` divides by zero (modelled by `none`). -/
theorem C10_counterexample : pace 1000000001 0 0 = none := by decide

/-- Claim C10, witness: at a concrete in-range QPS, pace is defined. -/
theorem C10_witness : (pace 5 0 0).isSome = true ∧ pace 0 0 0 = none :=
  C10_pace_defined 5 0 0 (by norm_num) (by norm_num)

/-! ## Claim C4: the `Success` flag

`sendRequest` (and every other function in `runner.go`) never assigns
`result.Success`, so the field keeps the Go zero value `false` on every path —
including a plain `200` response.  The summary code `printResultSummary`
nevertheless classifies results as successful by `r.Code >= 200 && r.Code < 400`,
which is the intended derivation the claim describes; the field is simply never
populated. -/

/-- Claim C4 (code bug).  Evaluating the embedded `sendRequest` at a request
whose response is a plain `200 OK`: the produced `Result` is exactly the one
the claim calls successful — transported without error (`Error = ""`), status
code in the success range — and is counted successful by
`printResultSummary`'s criterion, yet its `Success` flag is `false`, because
no code path ever assigns it. -/
theorem C4_success_flag_never_set :
    (sendRequest 0 0 5 (.response 200 "200 OK")).Success = false ∧
    (sendRequest 0 0 5 (.response 200 "200 OK")).Code = 200 ∧
    (sendRequest 0 0 5 (.response 200 "200 OK")).Error = "" ∧
    summarySuccess (sendRequest 0 0 5 (.response 200 "200 OK")) = true ∧
    (∀ o : HttpOutcome, ∀ seq sendTime doneTime : Nat,
      (sendRequest seq sendTime doneTime o).Success = false) := by
  refine ⟨rfl, rfl, rfl, rfl, ?_⟩
  intro o seq sendTime doneTime
  cases o <;> rfl

/-! ## Claim C6: idempotence of `Stop` -/

/-- Claim C6.  In any sequence of `n + 1` successive calls of `Stop` starting
from the open channel of `NewRunner`: the first call returns `true` (that
caller performed the transition), every subsequent call returns `false`
(distinguishable no-ops), and `close(r.stopch)` runs exactly once — there is
no double close and hence no panic. -/
theorem C6_stop_idempotent (n : Nat) :
    (stopCalls (n + 1) stopInit).2 = true :: List.replicate n false ∧
    (stopCalls (n + 1) stopInit).1.closeCount = 1 ∧
    (stopCalls (n + 1) stopInit).1.stopchClosed = true := by
  have hclosed : ∀ m : Nat, ∀ s : StopState, s.stopchClosed = true →
      stopCalls m s = (s, List.replicate m false) := by
    intro m
    induction m with
    | zero => intro s _; rfl
    | succ k ih =>
        intro s hs
        have hstop : Stop s = (s, false) := by rw [Stop, if_pos hs]
        simp only [stopCalls, hstop, ih s hs, List.replicate_succ]
  have h1 : Stop stopInit = ({ stopchClosed := true, closeCount := 1 }, true) := rfl
  simp only [stopCalls, h1, hclosed n { stopchClosed := true, closeCount := 1 } rfl]
  exact ⟨trivial, trivial, trivial⟩

/-! ## Claim C8: per-attempt error taxonomy -/

/-- Claim C8.  For every single request attempt: a request build failure yields
a `Result` with zero status code and the build error text; a transport failure
likewise yields zero status code and the transport error text; a response with
a status code outside `200–399` yields a `Result` carrying the real status
code with the HTTP status text as its error field; and the error field is
empty on a success-range status.  (In each case `sendRequest` returns a
`Result` rather than aborting; in the run model below the worker pushes it and
returns to the tick loop, so the run continues.) -/
theorem C8_error_taxonomy (seq sendTime doneTime : Nat) (msg text : String) (code : Nat) :
    ((sendRequest seq sendTime doneTime (.buildErr msg)).Code = 0 ∧
      (sendRequest seq sendTime doneTime (.buildErr msg)).Error = msg) ∧
    ((sendRequest seq sendTime doneTime (.transportErr msg)).Code = 0 ∧
      (sendRequest seq sendTime doneTime (.transportErr msg)).Error = msg) ∧
    (code < 65536 → ¬ (200 ≤ code ∧ code < 400) →
      (sendRequest seq sendTime doneTime (.response code text)).Code = code ∧
      (sendRequest seq sendTime doneTime (.response code text)).Error = text) ∧
    (200 ≤ code → code < 400 →
      (sendRequest seq sendTime doneTime (.response code text)).Error = "") := by
  refine ⟨⟨rfl, rfl⟩, ⟨rfl, rfl⟩, ?_, ?_⟩
  · intro hlt hout
    have hmod : code % 65536 = code := Nat.mod_eq_of_lt hlt
    constructor
    · simp only [sendRequest, hmod]
    · simp only [sendRequest, hmod]
      rw [if_pos (by omega)]
  · intro h200 h400
    have hmod : code % 65536 = code := Nat.mod_eq_of_lt (by omega)
    simp only [sendRequest, hmod]
    rw [if_neg (by omega)]

/-- Claim C8, witness: a concrete `404` response carries the real code and the
status text. -/
theorem C8_witness :
    (sendRequest 0 0 1 (.response 404 "404 Not Found")).Code = 404 ∧
    (sendRequest 0 0 1 (.response 404 "404 Not Found")).Error = "404 Not Found" :=
  (C8_error_taxonomy 0 0 1 "x" "404 Not Found" 404).2.2.1 (by norm_num) (by norm_num)

/-! ## The `StartTest` dispatcher / worker-pool machine

`StartTest` spawns `args.Workers` workers, then runs the dispatch loop in a
goroutine.  We model the whole system (dispatch goroutine, worker goroutines,
the unbuffered `ticks` and `results` channels, the monotonic clock and the
externally triggerable stop signal) as a small-step transition relation.

Dispatcher control locations (`DPhase`):
* `loopTop` — top of the `for` loop: read `elapsed`, check the duration bound,
  call `pace`, sleep;
* `autosel` — at the non-blocking `select` of the autoscale branch (entered
  only when `r.args.AutoScale && workers < r.args.MaxWorkers`);
* `blocksel` — at the final blocking `select`;
* `draining` — the loop has returned and the deferred function has run
  `close(ticks)`; it is now in `wg.Wait()`;
* `closedR` — `wg.Wait()` returned and `close(results)` has run;
* `done` — the deferred `r.Stop()` has run.

Worker states are aggregated by count: `nIdle` workers are blocked receiving
on `ticks` (or already spawned and headed there), `nGot` workers have consumed
a tick but not yet entered the `lt.seqmu` critical section, `busy` is the
multiset of `(Seq, Timestamp)` of requests in flight, `nExited` workers have
observed the closed `ticks` channel and called `wg.Done()`.

Each step appends the events (`Ev`) it performs to a trace; `send q t` is the
mutex-guarded sequence-assignment of `sendRequest`, `push` is the send of one
`Result` on the `results` channel. -/

/-- Dispatcher control location; see the section comment. -/
inductive DPhase where
  | loopTop
  | autosel
  | blocksel
  | draining
  | closedR
  | done
deriving DecidableEq

/-- Observable events of the machine. -/
inductive Ev where
  | spawn
  | send (seq time : Nat)
  | push
  | closeTicks
  | workerExit
  | closeResults
  | dispStop
deriving DecidableEq

/-- Global machine state; see the section comment. -/
structure MState where
  now : Nat
  phase : DPhase
  count : Nat
  workersCount : Nat
  nIdle : Nat
  nGot : Nat
  busy : Multiset (Nat × Nat)
  nExited : Nat
  seqCtr : Nat
  output : List Result
  ticksClosed : Bool
  resultsClosed : Bool
  stopped : Bool

/-- The state right after `StartTest` has spawned the initial workers and the
dispatch goroutine: clock at the `lt.began` origin, `count = 0`, `lt.seq = 0`,
`workers = r.args.Workers` all heading to the tick receive, both channels open
and `r.stopch` open. -/
def initState (args : LoadTestArgs) : MState :=
  { now := 0, phase := .loopTop, count := 0, workersCount := args.workers,
    nIdle := args.workers, nGot := 0, busy := 0, nExited := 0, seqCtr := 0,
    output := [], ticksClosed := false, resultsClosed := false, stopped := false }

/-- One interleaved step of the system.  The Go source lines each constructor
embeds are quoted in its comment. -/
inductive Step (args : LoadTestArgs) : MState → List Ev → MState → Prop where
  /-- The monotonic clock advances (covers `time.Sleep(wait)` and all other
  passage of time). -/
  | clock (s : MState) (d : Nat) :
      Step args s [] { s with now := s.now + d }
  /-- An external caller triggers `r.Stop()` (e.g. `Run`'s signal handler),
  closing `r.stopch`. -/
  | extStop (s : MState) (h : s.stopped = false) :
      Step args s [] { s with stopped := true }
  /-- Embeds `if r.args.Duration > 0 && elapsed > r.args.Duration { return }`
  followed by the deferred `close(ticks)`. -/
  | durStop (s : MState) (hp : s.phase = .loopTop)
      (hd : 0 < args.duration ∧ args.duration < (s.now : Int)) :
      Step args s [.closeTicks] { s with phase := .draining, ticksClosed := true }
  /-- Embeds `wait, stop := r.pace(elapsed, count); if stop { return }` followed by
  the deferred `close(ticks)`. -/
  | paceStop (s : MState) (hp : s.phase = .loopTop)
      (hd : ¬ (0 < args.duration ∧ args.duration < (s.now : Int)))
      (w : Int) (hpace : pace args.qps (s.now : Int) s.count = some (w, true)) :
      Step args s [.closeTicks] { s with phase := .draining, ticksClosed := true }
  /-- Here `pace` said to continue; after the sleep the dispatcher proceeds to the
  autoscale non-blocking `select` iff `r.args.AutoScale && workers < r.args.MaxWorkers`,
  else directly to the blocking `select`. -/
  | paceGo (s : MState) (hp : s.phase = .loopTop)
      (hd : ¬ (0 < args.duration ∧ args.duration < (s.now : Int)))
      (w : Int) (hpace : pace args.qps (s.now : Int) s.count = some (w, false)) :
      Step args s []
        { s with phase :=
            if args.autoScale = true ∧ s.workersCount < args.maxWorkers
            then .autosel else .blocksel }
  /-- Embeds `case ticks <- struct{}{}: count++; continue` of the non-blocking
  `select`: rendezvous with a worker blocked on the tick receive. -/
  | autoDeliver (s : MState) (hp : s.phase = .autosel) (hi : 0 < s.nIdle) :
      Step args s []
        { s with phase := .loopTop, count := s.count + 1,
                 nIdle := s.nIdle - 1, nGot := s.nGot + 1 }
  /-- Embeds `case <-r.stopch: return` of the non-blocking `select`, followed by the
  deferred `close(ticks)`. -/
  | autoStopSel (s : MState) (hp : s.phase = .autosel) (hs : s.stopped = true) :
      Step args s [.closeTicks] { s with phase := .draining, ticksClosed := true }
  /-- Embeds `default: workers++; wg.Add(1); go r.runWorker(...)` of the non-blocking
  `select` (taken when the probe finds no ready case), falling through to the
  blocking `select`. -/
  | autoDefault (s : MState) (hp : s.phase = .autosel) :
      Step args s [.spawn]
        { s with phase := .blocksel, workersCount := s.workersCount + 1,
                 nIdle := s.nIdle + 1 }
  /-- Embeds `case ticks <- struct{}{}: count++` of the blocking `select`. -/
  | blockDeliver (s : MState) (hp : s.phase = .blocksel) (hi : 0 < s.nIdle) :
      Step args s []
        { s with phase := .loopTop, count := s.count + 1,
                 nIdle := s.nIdle - 1, nGot := s.nGot + 1 }
  /-- Embeds `case <-r.stopch: return` of the blocking `select`, followed by the
  deferred `close(ticks)`. -/
  | blockStop (s : MState) (hp : s.phase = .blocksel) (hs : s.stopped = true) :
      Step args s [.closeTicks] { s with phase := .draining, ticksClosed := true }
  /-- The `lt.seqmu`-guarded section of `sendRequest` in a worker that has a
  tick: `result.Timestamp = ...; result.Seq = lt.seq; lt.seq++`. -/
  | wSend (s : MState) (hg : 0 < s.nGot) :
      Step args s [.send s.seqCtr s.now]
        { s with nGot := s.nGot - 1, busy := (s.seqCtr, s.now) ::ₘ s.busy,
                 seqCtr := s.seqCtr + 1 }
  /-- A worker's request completes with outcome `o` at the current clock and
  the worker pushes `results <- r.sendRequest(lt)`, then loops back to the
  tick receive. -/
  | wPush (s : MState) (q t : Nat) (o : HttpOutcome) (hmem : (q, t) ∈ s.busy) :
      Step args s [.push]
        { s with busy := s.busy.erase (q, t), nIdle := s.nIdle + 1,
                 output := s.output ++ [sendRequest q t s.now o] }
  /-- Here `for range ticks` terminates in a worker blocked on the closed `ticks`
  channel; the deferred `wg.Done()` runs. -/
  | wExit (s : MState) (ht : s.ticksClosed = true) (hi : 0 < s.nIdle) :
      Step args s [.workerExit] { s with nIdle := s.nIdle - 1, nExited := s.nExited + 1 }
  /-- Here `wg.Wait()` returns (every spawned worker has called `wg.Done()`) and
  the deferred function runs `close(results)`. -/
  | drainDone (s : MState) (hp : s.phase = .draining) (hj : s.nExited = s.workersCount) :
      Step args s [.closeResults] { s with phase := .closedR, resultsClosed := true }
  /-- The deferred function finishes with `r.Stop()` (idempotent: the stop
  signal ends up triggered whether or not it already was). -/
  | finalStop (s : MState) (hp : s.phase = .closedR) :
      Step args s [.dispStop] { s with phase := .done, stopped := true }

/-- Finitely many interleaved steps, accumulating the trace. -/
inductive Reaches (args : LoadTestArgs) : MState → List Ev → MState → Prop where
  | refl (s : MState) : Reaches args s [] s
  | tail (s₁ : MState) (tr : List Ev) (s₂ : MState) (evs : List Ev) (s₃ : MState)
      (h1 : Reaches args s₁ tr s₂) (h2 : Step args s₂ evs s₃) :
      Reaches args s₁ (tr ++ evs) s₃

/-- Projection of a trace to its mutex-serialised sequence-assignment events,
in serialisation order. -/
def sendOf : Ev → Option (Nat × Nat)
  | .send q t => some (q, t)
  | _ => none

/-- The `(Seq, Timestamp)` pairs assigned so far, in send order. -/
def sends (tr : List Ev) : List (Nat × Nat) := tr.filterMap sendOf

/-- A trace fragment containing no shutdown event at all. -/
def noShut (l : List Ev) : Prop :=
  l.count .closeTicks = 0 ∧ l.count .closeResults = 0 ∧
  l.count .workerExit = 0 ∧ l.count .dispStop = 0

/-- A trace fragment that may contain worker exits but no channel close and no
final `Stop`. -/
def midOk (l : List Ev) : Prop :=
  l.count .closeTicks = 0 ∧ l.count .closeResults = 0 ∧ l.count .dispStop = 0

/-- Shape of the trace as a function of the dispatcher's phase: before the
loop exits no shutdown event has happened; from `draining` on, the trace is
`A ++ [closeTicks] ++ B` with all worker exits in `B`; `closeResults` and the
final `dispStop` extend it in that order. -/
def TraceShape (tr : List Ev) : DPhase → Prop
  | .loopTop | .autosel | .blocksel => noShut tr
  | .draining => ∃ A B, tr = A ++ Ev.closeTicks :: B ∧ noShut A ∧ midOk B
  | .closedR => ∃ A B, tr = A ++ Ev.closeTicks :: (B ++ [Ev.closeResults]) ∧ noShut A ∧ midOk B
  | .done => ∃ A B, tr = A ++ Ev.closeTicks :: (B ++ [Ev.closeResults, Ev.dispStop]) ∧
      noShut A ∧ midOk B

/-- The inductive invariant of the machine, relating a reachable state to its
trace. -/
structure Inv (args : LoadTestArgs) (tr : List Ev) (s : MState) : Prop where
  hCount : s.nIdle + s.nGot + Multiset.card s.busy + s.nExited = s.workersCount
  hTicks : s.ticksClosed = true ↔
    (s.phase = .draining ∨ s.phase = .closedR ∨ s.phase = .done)
  hRes : s.resultsClosed = true ↔ (s.phase = .closedR ∨ s.phase = .done)
  hJoined : s.phase = .closedR ∨ s.phase = .done → s.nExited = s.workersCount
  hAutosel : s.phase = .autosel → args.autoScale = true ∧ s.workersCount < args.maxWorkers
  hWC : s.workersCount = args.workers + tr.count .spawn
  hWCmax : s.workersCount ≤ max args.workers args.maxWorkers
  hExits : s.nExited = tr.count .workerExit
  hSeqs : (sends tr).map Prod.fst = List.range s.seqCtr
  hTimes : ((sends tr).map Prod.snd).Pairwise (· ≤ ·)
  hTimesNow : ∀ p ∈ sends tr, p.2 ≤ s.now
  hPairs : (sends tr : Multiset (Nat × Nat))
    = s.busy + (↑(s.output.map fun r => (r.Seq, r.Timestamp)) : Multiset (Nat × Nat))
  hLat : ∀ r ∈ s.output, 0 ≤ r.Latency
  hStop : s.phase = .done → s.stopped = true
  hShape : TraceShape tr s.phase

@[simp] lemma sends_append (l₁ l₂ : List Ev) : sends (l₁ ++ l₂) = sends l₁ ++ sends l₂ :=
  List.filterMap_append l₁ l₂ sendOf

@[simp] lemma sends_nil : sends [] = [] := rfl

@[simp] lemma sends_spawn : sends [Ev.spawn] = [] := rfl

@[simp] lemma sends_push : sends [Ev.push] = [] := rfl

@[simp] lemma sends_closeTicks : sends [Ev.closeTicks] = [] := rfl

@[simp] lemma sends_workerExit : sends [Ev.workerExit] = [] := rfl

@[simp] lemma sends_closeResults : sends [Ev.closeResults] = [] := rfl

@[simp] lemma sends_dispStop : sends [Ev.dispStop] = [] := rfl

@[simp] lemma sends_send (q t : Nat) : sends [Ev.send q t] = [(q, t)] := rfl

lemma noShut_nil : noShut [] := by simp [noShut]

lemma midOk_nil : midOk [] := by simp [midOk]

lemma noShut_append {A B : List Ev} (hA : noShut A) (hB : noShut B) : noShut (A ++ B) := by
  obtain ⟨a1, a2, a3, a4⟩ := hA
  obtain ⟨b1, b2, b3, b4⟩ := hB
  refine ⟨?_, ?_, ?_, ?_⟩ <;> simp [List.count_append, *]

lemma midOk_append {A B : List Ev} (hA : midOk A) (hB : midOk B) : midOk (A ++ B) := by
  obtain ⟨a1, a2, a3⟩ := hA
  obtain ⟨b1, b2, b3⟩ := hB
  refine ⟨?_, ?_, ?_⟩ <;> simp [List.count_append, *]

lemma noShut_spawn : noShut [Ev.spawn] := by simp [noShut]

lemma noShut_push : noShut [Ev.push] := by simp [noShut]

lemma noShut_send (q t : Nat) : noShut [Ev.send q t] := by simp [noShut]

lemma midOk_spawn : midOk [Ev.spawn] := by simp [midOk]

lemma midOk_push : midOk [Ev.push] := by simp [midOk]

lemma midOk_send (q t : Nat) : midOk [Ev.send q t] := by simp [midOk]

lemma midOk_workerExit : midOk [Ev.workerExit] := by simp [midOk]

lemma sendRequest_Seq (seq sendTime doneTime : Nat) (o : HttpOutcome) :
    (sendRequest seq sendTime doneTime o).Seq = seq := by cases o <;> rfl

lemma sendRequest_Timestamp (seq sendTime doneTime : Nat) (o : HttpOutcome) :
    (sendRequest seq sendTime doneTime o).Timestamp = sendTime := by cases o <;> rfl

lemma sendRequest_Latency (seq sendTime doneTime : Nat) (o : HttpOutcome) :
    (sendRequest seq sendTime doneTime o).Latency = (doneTime : Int) - (sendTime : Int) := by
  cases o <;> rfl

lemma inv_init (args : LoadTestArgs) : Inv args [] (initState args) := by
  refine ⟨?_, ?_, ?_, ?_, ?_, ?_, ?_, ?_, ?_, ?_, ?_, ?_, ?_, ?_, ?_⟩ <;>
    simp [initState, TraceShape, noShut, sends, le_max_left]

/-- Preservation of `Inv` by the four loop-exit transitions (duration expiry,
pace overflow stop, stop observed in either `select`): the deferred
`close(ticks)` runs. -/
lemma inv_shut {args : LoadTestArgs} {tr : List Ev} {s : MState} (hinv : Inv args tr s)
    (hrun : s.phase = .loopTop ∨ s.phase = .autosel ∨ s.phase = .blocksel) :
    Inv args (tr ++ [Ev.closeTicks]) { s with phase := .draining, ticksClosed := true } := by
  obtain ⟨hCount, hTicks, hRes, hJoined, hAutosel, hWC, hWCmax, hExits, hSeqs, hTimes,
    hTimesNow, hPairs, hLat, hStop, hShape⟩ := hinv
  have hResF : s.resultsClosed = false := by
    cases hbc : s.resultsClosed
    · rfl
    · rcases hRes.mp hbc with h2 | h2 <;> rcases hrun with h | h | h <;>
        rw [h2] at h <;> exact absurd h (by decide)
  have hNoShut : noShut tr := by
    rcases hrun with h | h | h <;> rw [h] at hShape <;> exact hShape
  refine ⟨hCount, by simp, by simp [hResF], by simp, by simp,
    by simpa [List.count_append] using hWC, hWCmax,
    by simpa [List.count_append] using hExits,
    by simpa [sends_append] using hSeqs,
    by simpa [sends_append] using hTimes,
    by simpa [sends_append] using hTimesNow,
    by simpa [sends_append] using hPairs, hLat, by simp, ?_⟩
  exact ⟨tr, [], rfl, hNoShut, midOk_nil⟩

/-- Preservation of `Inv` by a tick handoff (in either `select`). -/
lemma inv_deliver {args : LoadTestArgs} {tr : List Ev} {s : MState} (hinv : Inv args tr s)
    (hsel : s.phase = .autosel ∨ s.phase = .blocksel) (hi : 0 < s.nIdle) :
    Inv args tr { s with phase := .loopTop, count := s.count + 1,
                         nIdle := s.nIdle - 1, nGot := s.nGot + 1 } := by
  obtain ⟨hCount, hTicks, hRes, hJoined, hAutosel, hWC, hWCmax, hExits, hSeqs, hTimes,
    hTimesNow, hPairs, hLat, hStop, hShape⟩ := hinv
  have hTicksF : s.ticksClosed = false := by
    cases hbc : s.ticksClosed
    · rfl
    · rcases hTicks.mp hbc with h2 | h2 | h2 <;> rcases hsel with h | h <;>
        rw [h2] at h <;> exact absurd h (by decide)
  have hResF : s.resultsClosed = false := by
    cases hbc : s.resultsClosed
    · rfl
    · rcases hRes.mp hbc with h2 | h2 <;> rcases hsel with h | h <;>
        rw [h2] at h <;> exact absurd h (by decide)
  have hNoShut : noShut tr := by
    rcases hsel with h | h <;> rw [h] at hShape <;> exact hShape
  exact ⟨by dsimp only; omega, by simp [hTicksF], by simp [hResF], by simp, by simp, hWC,
    hWCmax, hExits, hSeqs, hTimes, hTimesNow, hPairs, hLat, by simp, hNoShut⟩

/-- Preservation of the invariant by every step of the machine. -/
theorem inv_step {args : LoadTestArgs} {tr : List Ev} {s : MState} {evs : List Ev} {s' : MState}
    (hinv : Inv args tr s) (hstep : Step args s evs s') : Inv args (tr ++ evs) s' := by
  cases hstep with
  | durStop hp hd => exact inv_shut hinv (Or.inl hp)
  | paceStop hp hd w hpace => exact inv_shut hinv (Or.inl hp)
  | autoStopSel hp hs => exact inv_shut hinv (Or.inr (Or.inl hp))
  | blockStop hp hs => exact inv_shut hinv (Or.inr (Or.inr hp))
  | autoDeliver hp hi => simpa using inv_deliver hinv (Or.inl hp) hi
  | blockDeliver hp hi => simpa using inv_deliver hinv (Or.inr hp) hi
  | clock d =>
      obtain ⟨hCount, hTicks, hRes, hJoined, hAutosel, hWC, hWCmax, hExits, hSeqs, hTimes,
        hTimesNow, hPairs, hLat, hStop, hShape⟩ := hinv
      refine ⟨hCount, hTicks, hRes, hJoined, hAutosel, by simpa using hWC, hWCmax,
        by simpa using hExits, by simpa using hSeqs, by simpa using hTimes, ?_,
        by simpa using hPairs, hLat, hStop, by simpa using hShape⟩
      intro p hp
      have := hTimesNow p (by simpa using hp)
      dsimp only
      omega
  | extStop h =>
      obtain ⟨hCount, hTicks, hRes, hJoined, hAutosel, hWC, hWCmax, hExits, hSeqs, hTimes,
        hTimesNow, hPairs, hLat, hStop, hShape⟩ := hinv
      exact ⟨hCount, hTicks, hRes, hJoined, hAutosel, by simpa using hWC, hWCmax,
        by simpa using hExits, by simpa using hSeqs, by simpa using hTimes,
        by simpa using hTimesNow, by simpa using hPairs, hLat, fun _ => rfl,
        by simpa using hShape⟩
  | paceGo hp hd w hpace =>
      obtain ⟨hCount, hTicks, hRes, hJoined, hAutosel, hWC, hWCmax, hExits, hSeqs, hTimes,
        hTimesNow, hPairs, hLat, hStop, hShape⟩ := hinv
      have hTicksF : s.ticksClosed = false := by
        cases hbc : s.ticksClosed
        · rfl
        · rcases hTicks.mp hbc with h2 | h2 | h2 <;> rw [h2] at hp <;>
            exact absurd hp (by decide)
      have hResF : s.resultsClosed = false := by
        cases hbc : s.resultsClosed
        · rfl
        · rcases hRes.mp hbc with h2 | h2 <;> rw [h2] at hp <;> exact absurd hp (by decide)
      have hNoShut : noShut tr := by rw [hp] at hShape; exact hShape
      by_cases hc : args.autoScale = true ∧ s.workersCount < args.maxWorkers
      · refine ⟨hCount, by simp [hc, hTicksF], by simp [hc, hResF], by simp [hc],
          fun _ => hc, by simpa using hWC, hWCmax, by simpa using hExits,
          by simpa using hSeqs, by simpa using hTimes, by simpa using hTimesNow,
          by simpa using hPairs, hLat, by simp [hc], by simpa [hc] using hNoShut⟩
      · refine ⟨hCount, by simp [hc, hTicksF], by simp [hc, hResF], by simp [hc],
          by simp [hc], by simpa using hWC, hWCmax, by simpa using hExits,
          by simpa using hSeqs, by simpa using hTimes, by simpa using hTimesNow,
          by simpa using hPairs, hLat, by simp [hc], by simpa [hc] using hNoShut⟩
  | autoDefault hp =>
      obtain ⟨hCount, hTicks, hRes, hJoined, hAutosel, hWC, hWCmax, hExits, hSeqs, hTimes,
        hTimesNow, hPairs, hLat, hStop, hShape⟩ := hinv
      have hAS := hAutosel hp
      have hTicksF : s.ticksClosed = false := by
        cases hbc : s.ticksClosed
        · rfl
        · rcases hTicks.mp hbc with h2 | h2 | h2 <;> rw [h2] at hp <;>
            exact absurd hp (by decide)
      have hResF : s.resultsClosed = false := by
        cases hbc : s.resultsClosed
        · rfl
        · rcases hRes.mp hbc with h2 | h2 <;> rw [h2] at hp <;> exact absurd hp (by decide)
      have hNoShut : noShut tr := by rw [hp] at hShape; exact hShape
      refine ⟨by dsimp only; omega, by simp [hTicksF], by simp [hResF], by simp, by simp,
        ?_, ?_, by simpa [List.count_append] using hExits, by simpa using hSeqs,
        by simpa using hTimes, by simpa using hTimesNow, by simpa using hPairs, hLat,
        by simp, ?_⟩
      · dsimp only
        have hc1 : List.count Ev.spawn (tr ++ [Ev.spawn]) = List.count Ev.spawn tr + 1 := by
          simp
        omega
      · dsimp only
        have h1 := le_max_right args.workers args.maxWorkers
        have h2 := hAS.2
        omega
      · exact noShut_append hNoShut noShut_spawn
  | wSend hg =>
      obtain ⟨hCount, hTicks, hRes, hJoined, hAutosel, hWC, hWCmax, hExits, hSeqs, hTimes,
        hTimesNow, hPairs, hLat, hStop, hShape⟩ := hinv
      refine ⟨by dsimp only; rw [Multiset.card_cons]; omega, hTicks, hRes, hJoined, hAutosel,
        by simpa [List.count_append] using hWC, hWCmax,
        by simpa [List.count_append] using hExits, ?_, ?_, ?_, ?_, hLat, hStop, ?_⟩
      · dsimp only
        rw [sends_append, sends_send, List.map_append, hSeqs, List.range_succ]
        simp
      · rw [sends_append, sends_send, List.map_append, List.pairwise_append]
        refine ⟨hTimes, by simp, ?_⟩
        intro x hx y hy
        simp only [List.map_cons, List.map_nil, List.mem_singleton] at hy
        subst hy
        obtain ⟨p, hp2, rfl⟩ := List.mem_map.mp hx
        exact hTimesNow p hp2
      · intro p hp2
        dsimp only
        rw [sends_append, sends_send] at hp2
        rcases List.mem_append.mp hp2 with h | h
        · exact hTimesNow p h
        · have := List.mem_singleton.mp h
          subst this
          exact le_rfl
      · dsimp only
        rw [sends_append, sends_send,
          show ((sends tr ++ [(s.seqCtr, s.now)] : List (Nat × Nat)) : Multiset (Nat × Nat))
              = (sends tr : Multiset (Nat × Nat)) + {(s.seqCtr, s.now)} from by
            rw [← Multiset.coe_singleton, ← Multiset.coe_add],
          hPairs, add_comm (s.busy + _) ({(s.seqCtr, s.now)} : Multiset (Nat × Nat)),
          Multiset.singleton_add, Multiset.cons_add]
      · dsimp only
        cases hph : s.phase with
        | loopTop => rw [hph] at hShape; exact noShut_append hShape (noShut_send _ _)
        | autosel => rw [hph] at hShape; exact noShut_append hShape (noShut_send _ _)
        | blocksel => rw [hph] at hShape; exact noShut_append hShape (noShut_send _ _)
        | draining =>
            rw [hph] at hShape
            obtain ⟨A, B, hAB, hA, hB⟩ := hShape
            exact ⟨A, B ++ [Ev.send s.seqCtr s.now],
              by rw [hAB]; simp, hA, midOk_append hB (midOk_send _ _)⟩
        | closedR =>
            exfalso
            have := hJoined (Or.inl hph)
            omega
        | done =>
            exfalso
            have := hJoined (Or.inr hph)
            omega
  | wPush q t o hmem =>
      obtain ⟨hCount, hTicks, hRes, hJoined, hAutosel, hWC, hWCmax, hExits, hSeqs, hTimes,
        hTimesNow, hPairs, hLat, hStop, hShape⟩ := hinv
      have hcard : 0 < Multiset.card s.busy := Multiset.card_pos_iff_exists_mem.mpr ⟨_, hmem⟩
      have hmemS : (q, t) ∈ sends tr := by
        rw [← Multiset.mem_coe, hPairs]
        exact Multiset.mem_add.mpr (Or.inl hmem)
      have htle : t ≤ s.now := hTimesNow (q, t) hmemS
      have hco : (↑(s.output.map (fun r => (r.Seq, r.Timestamp)) ++ [(q, t)])
            : Multiset (Nat × Nat))
          = (q, t) ::ₘ (↑(s.output.map fun r => (r.Seq, r.Timestamp)) : Multiset (Nat × Nat)) := by
        rw [Multiset.cons_coe]
        exact Multiset.coe_eq_coe.mpr (List.perm_append_singleton _ _)
      refine ⟨?_, hTicks, hRes, hJoined, hAutosel, by simpa [List.count_append] using hWC,
        hWCmax, by simpa [List.count_append] using hExits, by simpa using hSeqs,
        by simpa using hTimes, by simpa using hTimesNow, ?_, ?_, hStop, ?_⟩
      · dsimp only
        rw [Multiset.card_erase_of_mem hmem]
        simp only [Nat.pred_eq_sub_one]
        omega
      · dsimp only
        have hmap : (s.output ++ [sendRequest q t s.now o]).map (fun r => (r.Seq, r.Timestamp))
            = s.output.map (fun r => (r.Seq, r.Timestamp)) ++ [(q, t)] := by
          rw [List.map_append]
          simp [sendRequest_Seq, sendRequest_Timestamp]
        rw [sends_append, sends_push, List.append_nil, hmap, hco, hPairs,
          ← Multiset.cons_erase hmem, Multiset.cons_add, Multiset.add_cons,
          Multiset.erase_cons_head]
      · dsimp only
        intro r hr
        rcases List.mem_append.mp hr with h | h
        · exact hLat r h
        · have := List.mem_singleton.mp h
          subst this
          rw [sendRequest_Latency]
          omega
      · dsimp only
        cases hph : s.phase with
        | loopTop => rw [hph] at hShape; exact noShut_append hShape noShut_push
        | autosel => rw [hph] at hShape; exact noShut_append hShape noShut_push
        | blocksel => rw [hph] at hShape; exact noShut_append hShape noShut_push
        | draining =>
            rw [hph] at hShape
            obtain ⟨A, B, hAB, hA, hB⟩ := hShape
            exact ⟨A, B ++ [Ev.push], by rw [hAB]; simp, hA, midOk_append hB midOk_push⟩
        | closedR =>
            exfalso
            have := hJoined (Or.inl hph)
            omega
        | done =>
            exfalso
            have := hJoined (Or.inr hph)
            omega
  | wExit ht hi =>
      obtain ⟨hCount, hTicks, hRes, hJoined, hAutosel, hWC, hWCmax, hExits, hSeqs, hTimes,
        hTimesNow, hPairs, hLat, hStop, hShape⟩ := hinv
      rcases hTicks.mp ht with hph | hph | hph
      · rw [hph] at hShape
        obtain ⟨A, B, hAB, hA, hB⟩ := hShape
        refine ⟨by dsimp only; omega, hTicks, hRes, ?_, ?_,
          by simpa [List.count_append] using hWC, hWCmax, ?_, by simpa using hSeqs,
          by simpa using hTimes, by simpa using hTimesNow, by simpa using hPairs, hLat,
          ?_, ?_⟩
        · intro h
          rcases h with h | h <;> rw [hph] at h <;> exact absurd h (by decide)
        · intro h
          rw [hph] at h
          exact absurd h (by decide)
        · dsimp only
          simp only [List.count_append]
          simp [hExits]
        · intro h
          rw [hph] at h
          exact absurd h (by decide)
        · dsimp only
          rw [hph]
          exact ⟨A, B ++ [Ev.workerExit], by rw [hAB]; simp, hA,
            midOk_append hB midOk_workerExit⟩
      · exfalso
        have := hJoined (Or.inl hph)
        omega
      · exfalso
        have := hJoined (Or.inr hph)
        omega
  | drainDone hp hj =>
      obtain ⟨hCount, hTicks, hRes, hJoined, hAutosel, hWC, hWCmax, hExits, hSeqs, hTimes,
        hTimesNow, hPairs, hLat, hStop, hShape⟩ := hinv
      rw [hp] at hShape
      obtain ⟨A, B, hAB, hA, hB⟩ := hShape
      refine ⟨hCount, by simp [hTicks.mpr (Or.inl hp)], by simp,
        fun _ => hj, by simp, by simpa [List.count_append] using hWC, hWCmax,
        by simpa [List.count_append] using hExits, by simpa using hSeqs,
        by simpa using hTimes, by simpa using hTimesNow, by simpa using hPairs, hLat,
        by simp, ?_⟩
      exact ⟨A, B, by rw [hAB]; simp, hA, hB⟩
  | finalStop hp =>
      obtain ⟨hCount, hTicks, hRes, hJoined, hAutosel, hWC, hWCmax, hExits, hSeqs, hTimes,
        hTimesNow, hPairs, hLat, hStop, hShape⟩ := hinv
      rw [hp] at hShape
      obtain ⟨A, B, hAB, hA, hB⟩ := hShape
      refine ⟨hCount, by simp [hTicks.mpr (Or.inr (Or.inl hp))],
        by simp [hRes.mpr (Or.inl hp)], fun _ => hJoined (Or.inl hp), by simp,
        by simpa [List.count_append] using hWC, hWCmax,
        by simpa [List.count_append] using hExits, by simpa using hSeqs,
        by simpa using hTimes, by simpa using hTimesNow, by simpa using hPairs, hLat,
        fun _ => rfl, ?_⟩
      exact ⟨A, B, by rw [hAB]; simp, hA, hB⟩

/-- The invariant holds in every reachable state. -/
theorem inv_reaches {args : LoadTestArgs} {tr : List Ev} {s : MState}
    (h : Reaches args (initState args) tr s) : Inv args tr s := by
  induction h with
  | refl => exact inv_init args
  | tail tr2 s2 evs2 s3 h1 h2 ih => exact inv_step ih h2

/-- In a list of `(Seq, Timestamp)` pairs whose first components are exactly
`0, 1, …, n-1` in order and whose second components are non-decreasing, the
timestamp is monotone in the sequence number. -/
lemma sends_mono {l : List (Nat × Nat)} {n : Nat} (h1 : l.map Prod.fst = List.range n)
    (h2 : (l.map Prod.snd).Pairwise (· ≤ ·)) :
    ∀ p ∈ l, ∀ r ∈ l, p.1 ≤ r.1 → p.2 ≤ r.2 := by
  have hlen : l.length = n := by
    have h := congrArg List.length h1
    simpa using h
  intro p hp r hr hle
  obtain ⟨i, hi⟩ := List.mem_iff_getElem?.mp hp
  obtain ⟨j, hj⟩ := List.mem_iff_getElem?.mp hr
  have hin : i < l.length := by
    by_contra hcon
    rw [List.getElem?_eq_none (by omega)] at hi
    cases hi
  have hjn : j < l.length := by
    by_contra hcon
    rw [List.getElem?_eq_none (by omega)] at hj
    cases hj
  have hpi : l[i] = p := by
    rw [List.getElem?_eq_getElem hin] at hi
    exact Option.some.inj hi
  have hrj : l[j] = r := by
    rw [List.getElem?_eq_getElem hjn] at hj
    exact Option.some.inj hj
  have hp1 : p.1 = i := by
    have h3 : (l.map Prod.fst)[i]? = some p.1 := by
      rw [List.getElem?_map, hi]
      rfl
    rw [h1, List.getElem?_eq_getElem (by simpa using by omega : i < (List.range n).length),
      List.getElem_range] at h3
    exact (Option.some.inj h3).symm
  have hr1 : r.1 = j := by
    have h3 : (l.map Prod.fst)[j]? = some r.1 := by
      rw [List.getElem?_map, hj]
      rfl
    rw [h1, List.getElem?_eq_getElem (by simpa using by omega : j < (List.range n).length),
      List.getElem_range] at h3
    exact (Option.some.inj h3).symm
  rcases Nat.lt_or_ge i j with hij | hij
  · have h5 := List.pairwise_iff_getElem.mp h2 i j (by simpa using hin) (by simpa using hjn) hij
    rw [List.getElem_map, List.getElem_map, hpi, hrj] at h5
    exact h5
  · have hieq : i = j := by omega
    subst hieq
    have : p = r := hpi.symm.trans hrj
    exact le_of_eq (congrArg Prod.snd this)

/-! ## Claim C2: sequence numbers, timestamps and latencies of a completed run -/

/-- Claim C2.  For any completed run (one whose dispatcher reached the final
`done` phase) producing `n` Results in total: the multiset of sequence numbers
carried by those Results is exactly `{0, 1, …, n-1}` (a permutation of
`List.range n` — no gaps, no duplicates); in send order the assigned sequence
numbers are exactly `0, 1, 2, …` (strictly increasing, each mutex-guarded
section of `sendRequest` handing out the current counter and incrementing it);
timestamps are monotonically non-decreasing with respect to sequence number;
and every Result's latency is non-negative. -/
theorem C2_sequencing (args : LoadTestArgs) (tr : List Ev) (s : MState)
    (hrun : Reaches args (initState args) tr s) (hdone : s.phase = DPhase.done) :
    ((s.output.map Result.Seq).Perm (List.range s.output.length)) ∧
    ((sends tr).map Prod.fst = List.range s.seqCtr ∧
      ((sends tr).map Prod.fst).Pairwise (· < ·)) ∧
    (∀ r₁ ∈ s.output, ∀ r₂ ∈ s.output, r₁.Seq ≤ r₂.Seq → r₁.Timestamp ≤ r₂.Timestamp) ∧
    (∀ r ∈ s.output, 0 ≤ r.Latency) := by
  obtain ⟨hCount, hTicks, hRes, hJoined, hAutosel, hWC, hWCmax, hExits, hSeqs, hTimes,
    hTimesNow, hPairs, hLat, hStop, hShape⟩ := inv_reaches hrun
  have hEx : s.nExited = s.workersCount := hJoined (Or.inr hdone)
  have hbusy0 : s.busy = 0 := by
    have hc : Multiset.card s.busy = 0 := by omega
    exact Multiset.card_eq_zero.mp hc
  have hperm : (sends tr).Perm (s.output.map fun r => (r.Seq, r.Timestamp)) := by
    have h := hPairs
    rw [hbusy0, zero_add] at h
    exact Multiset.coe_eq_coe.mp h
  have hlenS : (sends tr).length = s.seqCtr := by
    have h := congrArg List.length hSeqs
    simpa using h
  have hlenO : s.output.length = s.seqCtr := by
    have h := hperm.length_eq
    simp only [List.length_map] at h
    omega
  refine ⟨?_, ⟨hSeqs, by rw [hSeqs]; exact List.pairwise_lt_range _⟩, ?_, hLat⟩
  · have hm := (hperm.map Prod.fst).symm
    have he : (s.output.map fun r => (r.Seq, r.Timestamp)).map Prod.fst
        = s.output.map Result.Seq := by
      rw [List.map_map]
      rfl
    rw [he, hSeqs] at hm
    rw [hlenO]
    exact hm
  · intro r₁ h1 r₂ h2 hle
    have hm1 : (r₁.Seq, r₁.Timestamp) ∈ sends tr :=
      hperm.mem_iff.mpr (List.mem_map_of_mem _ h1)
    have hm2 : (r₂.Seq, r₂.Timestamp) ∈ sends tr :=
      hperm.mem_iff.mpr (List.mem_map_of_mem _ h2)
    exact sends_mono hSeqs hTimes _ hm1 _ hm2 hle

/-! ## Claim C7: shutdown protocol of the dispatch loop -/

/-- Claim C7.  When the dispatch loop exits — by duration expiry, by the pacer's
overflow stop, or by observing the stop signal — the shutdown steps happen in
order: the tick channel is closed (`closeTicks`), then all spawned workers are
joined (every `workerExit` lies strictly between `closeTicks` and
`closeResults`, and their number equals the final worker count), then the
result sink is closed (`closeResults`), and finally the stop signal is
triggered (`dispStop`, after which `stopped = true`).  The tick channel and
the sink are each closed exactly once, and — since the whole trace is
`A ++ closeTicks :: B ++ [closeResults, dispStop]` with every `push` event in
`A` or `B` — no Result is pushed after the sink closes. -/
theorem C7_shutdown_order (args : LoadTestArgs) (tr : List Ev) (s : MState)
    (hrun : Reaches args (initState args) tr s) (hdone : s.phase = DPhase.done) :
    ∃ A B, tr = A ++ Ev.closeTicks :: (B ++ [Ev.closeResults, Ev.dispStop]) ∧
      noShut A ∧ midOk B ∧
      tr.count Ev.closeTicks = 1 ∧ tr.count Ev.closeResults = 1 ∧
      B.count Ev.workerExit = s.workersCount ∧ s.stopped = true := by
  obtain ⟨hCount, hTicks, hRes, hJoined, hAutosel, hWC, hWCmax, hExits, hSeqs, hTimes,
    hTimesNow, hPairs, hLat, hStop, hShape⟩ := inv_reaches hrun
  rw [hdone] at hShape
  obtain ⟨A, B, hAB, hA, hB⟩ := hShape
  refine ⟨A, B, hAB, hA, hB, ?_, ?_, ?_, hStop hdone⟩
  · rw [hAB]
    simp [List.count_append, List.count_cons, hA.1, hB.1]
  · rw [hAB]
    simp [List.count_append, List.count_cons, hA.2.1, hB.2.1]
  · have hj := hJoined (Or.inr hdone)
    rw [hAB] at hExits
    simp [List.count_append, List.count_cons, hA.2.2.1] at hExits
    omega

/-! ## Claim C9: monotone growth of the worker pool -/

/-- Claim C9.  (a) Along any execution the live worker count never decreases;
(b) it equals the initial count plus the number of autoscale spawn decisions,
i.e. it grows by exactly one per autoscale decision; (c) a spawn step is only
taken when autoscale is enabled and the current count is strictly below
`MaxWorkers`; hence (d) starting from an initial count at or below
`MaxWorkers`, the worker count stays at or below `MaxWorkers` for the whole
run. -/
theorem C9_worker_pool (args : LoadTestArgs) :
    (∀ s tr s', Reaches args s tr s' → s.workersCount ≤ s'.workersCount) ∧
    (∀ tr s, Reaches args (initState args) tr s →
      s.workersCount = args.workers + tr.count Ev.spawn) ∧
    (∀ tr s, Reaches args (initState args) tr s → ∀ evs s', Step args s evs s' →
      Ev.spawn ∈ evs → args.autoScale = true ∧ s.workersCount < args.maxWorkers) ∧
    (args.workers ≤ args.maxWorkers → ∀ tr s, Reaches args (initState args) tr s →
      s.workersCount ≤ args.maxWorkers) := by
  refine ⟨?_, ?_, ?_, ?_⟩
  · intro s tr s' h
    induction h with
    | refl => exact le_rfl
    | tail tr2 s2 evs2 s3 h1 h2 ih =>
        refine le_trans ih ?_
        cases h2 <;> dsimp only <;> omega
  · intro tr s h
    exact (inv_reaches h).hWC
  · intro tr s h evs s' hstep hmem
    have hinv := inv_reaches h
    cases hstep with
    | autoDefault hp => exact hinv.hAutosel hp
    | clock d => simp at hmem
    | extStop h2 => simp at hmem
    | durStop hp hd => simp at hmem
    | paceStop hp hd w hpace => simp at hmem
    | paceGo hp hd w hpace => simp at hmem
    | autoDeliver hp hi => simp at hmem
    | autoStopSel hp hs => simp at hmem
    | blockDeliver hp hi => simp at hmem
    | blockStop hp hs => simp at hmem
    | wSend hg => simp at hmem
    | wPush q t o hmem2 => simp at hmem
    | wExit ht hi => simp at hmem
    | drainDone hp hj => simp at hmem
    | finalStop hp => simp at hmem
  · intro hwm tr s h
    have h1 := (inv_reaches h).hWCmax
    rw [max_eq_right hwm] at h1
    exact h1

/-! ## Concrete executions used by the witnesses -/

/-- A tiny configuration: duration 1ns, QPS 1, one worker, no autoscale. -/
def argsW1 : LoadTestArgs :=
  { duration := 1, qps := 1, workers := 1, maxWorkers := 1, autoScale := false,
    timeout := 30, method := "GET", outputFile := "stdout" }

/-- The final state of the `argsW1` example run (no request was issued; the
duration expired immediately). -/
def sW1 : MState :=
  { now := 2, phase := .done, count := 0, workersCount := 1, nIdle := 0, nGot := 0,
    busy := 0, nExited := 1, seqCtr := 0, output := [], ticksClosed := true,
    resultsClosed := true, stopped := true }

/-- A complete execution under `argsW1`: the clock advances past the duration,
the loop exits, the single worker drains and the shutdown sequence runs. -/
lemma runW1 : Reaches argsW1 (initState argsW1)
    [Ev.closeTicks, Ev.workerExit, Ev.closeResults, Ev.dispStop] sW1 := by
  have h0 : Reaches argsW1 (initState argsW1) [] (initState argsW1) := Reaches.refl _
  have h1 := Reaches.tail _ _ _ _ _ h0 (Step.clock (initState argsW1) 2)
  have h2 := Reaches.tail _ _ _ _ _ h1 (Step.durStop _ rfl (by decide))
  have h3 := Reaches.tail _ _ _ _ _ h2 (Step.wExit _ rfl (by decide))
  have h4 := Reaches.tail _ _ _ _ _ h3 (Step.drainDone _ rfl (by decide))
  have h5 := Reaches.tail _ _ _ _ _ h4 (Step.finalStop _ rfl)
  exact h5

/-- A configuration under which one request completes: duration 5ns, QPS 1,
one worker, no autoscale. -/
def argsW2 : LoadTestArgs :=
  { duration := 5, qps := 1, workers := 1, maxWorkers := 1, autoScale := false,
    timeout := 30, method := "GET", outputFile := "out.csv" }

/-- The single Result of the `argsW2` example run: a `200 OK` response, sent
and completed at clock time `0`. -/
def resW2 : Result := sendRequest 0 0 0 (.response 200 "200 OK")

/-- Mid-run state of the `argsW2` example: one request has been sent and its
Result pushed; the dispatcher is back at the loop top; nothing is stopped. -/
def sMid : MState :=
  { now := 0, phase := .loopTop, count := 1, workersCount := 1, nIdle := 1, nGot := 0,
    busy := 0, nExited := 0, seqCtr := 1, output := [resW2], ticksClosed := false,
    resultsClosed := false, stopped := false }

/-- Prefix of the `argsW2` execution: pace allows the tick, the worker takes
it, sends the request and pushes the Result. -/
lemma runMid : Reaches argsW2 (initState argsW2) [Ev.send 0 0, Ev.push] sMid := by
  have h0 : Reaches argsW2 (initState argsW2) [] (initState argsW2) := Reaches.refl _
  have h1 := Reaches.tail _ _ _ _ _ h0
    (Step.paceGo (initState argsW2) rfl (by decide) 1000000000 (by decide))
  have h2 := Reaches.tail _ _ _ _ _ h1 (Step.blockDeliver _ (by decide) (by decide))
  have h3 := Reaches.tail _ _ _ _ _ h2 (Step.wSend _ (by decide))
  have h4 := Reaches.tail _ _ _ _ _ h3
    (Step.wPush _ 0 0 (.response 200 "200 OK") (by decide))
  exact h4

/-- Trace of the complete `argsW2` execution. -/
def trW2 : List Ev :=
  [Ev.send 0 0, Ev.push, Ev.closeTicks, Ev.workerExit, Ev.closeResults, Ev.dispStop]

/-- Final state of the complete `argsW2` execution. -/
def sW2 : MState :=
  { now := 6, phase := .done, count := 1, workersCount := 1, nIdle := 0, nGot := 0,
    busy := 0, nExited := 1, seqCtr := 1, output := [resW2], ticksClosed := true,
    resultsClosed := true, stopped := true }

/-- The complete `argsW2` execution: one request, then duration expiry and the
shutdown sequence. -/
lemma runW2 : Reaches argsW2 (initState argsW2) trW2 sW2 := by
  have h4 := runMid
  have h5 := Reaches.tail _ _ _ _ _ h4 (Step.clock sMid 6)
  have h6 := Reaches.tail _ _ _ _ _ h5 (Step.durStop _ rfl (by decide))
  have h7 := Reaches.tail _ _ _ _ _ h6 (Step.wExit _ rfl (by decide))
  have h8 := Reaches.tail _ _ _ _ _ h7 (Step.drainDone _ rfl (by decide))
  have h9 := Reaches.tail _ _ _ _ _ h8 (Step.finalStop _ rfl)
  exact h9

/-- Claim C2, witness: the completed `argsW2` run instantiates the sequencing
guarantees. -/
theorem C2_witness :
    ((sW2.output.map Result.Seq).Perm (List.range sW2.output.length)) ∧
    ((sends trW2).map Prod.fst = List.range sW2.seqCtr ∧
      ((sends trW2).map Prod.fst).Pairwise (· < ·)) ∧
    (∀ r₁ ∈ sW2.output, ∀ r₂ ∈ sW2.output, r₁.Seq ≤ r₂.Seq → r₁.Timestamp ≤ r₂.Timestamp) ∧
    (∀ r ∈ sW2.output, 0 ≤ r.Latency) :=
  C2_sequencing argsW2 trW2 sW2 runW2 rfl

/-- Claim C7, witness: the completed `argsW1` run instantiates the shutdown
ordering. -/
theorem C7_witness :
    ∃ A B, [Ev.closeTicks, Ev.workerExit, Ev.closeResults, Ev.dispStop]
        = A ++ Ev.closeTicks :: (B ++ [Ev.closeResults, Ev.dispStop]) ∧
      noShut A ∧ midOk B ∧
      [Ev.closeTicks, Ev.workerExit, Ev.closeResults, Ev.dispStop].count Ev.closeTicks = 1 ∧
      [Ev.closeTicks, Ev.workerExit, Ev.closeResults, Ev.dispStop].count Ev.closeResults = 1 ∧
      B.count Ev.workerExit = sW1.workersCount ∧ sW1.stopped = true :=
  C7_shutdown_order argsW1 _ sW1 runW1 rfl

/-- Claim C9, witness: under `argsW1` (initial workers at the maximum) the bound
holds at the initial state. -/
theorem C9_witness : (initState argsW1).workersCount ≤ argsW1.maxWorkers :=
  (C9_worker_pool argsW1).2.2.2 (by decide) [] (initState argsW1) (Reaches.refl _)

/-! ## Claim C5: output-sink open failure in `Run` -/

/-- The externally visible actions of `(r *Runner).Run()` before its main
drain loop. -/
inductive RunAct where
  | startTest
  | openWriter (ok : Bool)
  | returnOpenError
  | drainResults
deriving DecidableEq

/-- Control-flow skeleton of `(r *Runner).Run()`:

```go
results := r.StartTest()          // the load test starts here
sig := make(chan os.Signal, 1)
signal.Notify(sig, ...)
w, err := createWriter(r.args.OutputFile)
if err != nil {
    return fmt.Errorf("error opening %s: %s", ...)   // no r.Stop() here
}
...                               // drain loop
```

`r.StartTest()` is invoked *before* `createWriter`; on open failure `Run`
returns the error immediately — without draining any results and without
triggering the stop signal of the already-started test. -/
def runActs (openOk : Bool) : List RunAct :=
  [.startTest, .openWriter openOk] ++ if openOk then [.drainResults] else [.returnOpenError]

/-- Claim C5, counterexample.  When opening the output sink fails, `Run` does
propagate the error (it ends in `returnOpenError`, never draining) — but the
load test was already started by the preceding `StartTest` call and is not
stopped: from the post-`StartTest` initial state there is an execution that
sends a request and pushes its Result while the stop signal is still untriggered.
So "the run aborts before any requests are sent" is false. -/
theorem C5_counterexample :
    runActs false = [.startTest, .openWriter false, .returnOpenError] ∧
    Reaches argsW2 (initState argsW2) [Ev.send 0 0, Ev.push] sMid ∧
    sMid.output = [resW2] ∧ sMid.stopped = false :=
  ⟨rfl, runMid, rfl, rfl⟩

/-- Claim C5 (amended).  If the output sink cannot be opened, the failure is
fatal to `Run`: the error is propagated to the caller and no results are
drained or written.  However `StartTest` is invoked before the writer is
opened and `Run` does not stop the started test on this failure, so requests
may already be issued — the run does not abort before any request is sent. -/
theorem C5_open_failure :
    runActs false = [.startTest, .openWriter false, .returnOpenError] ∧
    RunAct.drainResults ∉ runActs false ∧
    (∀ ok, (runActs ok).head? = some .startTest) := by
  refine ⟨rfl, by decide, ?_⟩
  intro ok
  cases ok <;> rfl

end LoadTester
